import Mathlib

/-!
Verification development for the tensor post/pre-processing core of the
vivid-onnx repository: the `Tensor` shape algebra (`src/src/onnx_model.cpp`),
the MoveNet pose decoder (`PoseDetector`, `src/unnamed/part_002`) and the
BlazeFace face decoder (`FaceDetector`, namespace `vivid::onnx`,
`src/unnamed/part_003`).

Modelling conventions:
* C++ `float` values are modelled by exact rationals `ℚ`; the claims under
  study are about selection, ordering, clamping and counting logic, not about
  rounding.  The logistic sigmoid `1/(1+exp(-x))` is transcendental, so the
  face decoder is parametrised by a function `sig : ℚ → ℚ`; claims that rely
  on its range carry the hypothesis `∀ s, 0 < sig s ∧ sig s < 1`, which the
  real sigmoid satisfies.
* `std::vector` buffers become `List`s, raw `const float*` pointers become
  functions `ℕ → ℚ` (reads through them use `List.getD`-style lookups with
  default `0` where the C++ indexing is in bounds by construction).
* C++ `int64_t`/`size_t` shape arithmetic is modelled by exact integers;
  64-bit wraparound is not modelled.
-/

namespace VividOnnx

/-- Element types of the supported ONNX tensors (`onnx_model.h`, `enum class TensorType`). -/
inductive TensorType where
  | float32
  | uint8
  | int32
deriving DecidableEq

/-- `struct Tensor` from `onnx_model.h`: three typed buffers, a shape and the
active element type. -/
structure Tensor where
  data : List ℚ
  dataU8 : List ℕ
  dataI32 : List ℤ
  shape : List ℤ
  type : TensorType
deriving DecidableEq

/-- `Tensor::size()` (`src/src/onnx_model.cpp:16`): 0 for an empty shape,
otherwise the product of all shape dimensions (accumulated with initial
value 1). -/
def Tensor.size (t : Tensor) : ℤ :=
  if t.shape = [] then 0 else t.shape.foldl (· * ·) 1

/-- `Tensor::reshape(newShape)` (`src/src/onnx_model.cpp:21`): computes the
product of the new dimensions, throws a "size mismatch" error when it differs
from `size()`, otherwise replaces only the shape metadata. -/
def Tensor.reshape (t : Tensor) (newShape : List ℤ) : Except String Tensor :=
  let newSize := newShape.foldl (· * ·) 1
  if newSize ≠ t.size then .error "Tensor reshape: size mismatch"
  else .ok { t with shape := newShape }

/-! ## Pose decoder (`PoseDetector`, `src/unnamed/part_002`) -/

/-- One keypoint slot `glm::vec3(x, y, confidence)`. -/
abbrev Vec3 := ℚ × ℚ × ℚ

/-- The pose decoder state observable through the query API: the 17 keypoint
slots `m_keypoints` and the flag `m_detected`. -/
structure PoseState where
  keypoints : Fin 17 → Vec3
  detected : Bool

/-- `PoseDetector::PoseDetector()`: every keypoint initialised to
`glm::vec3(0,0,0)`; `m_detected` defaults to false. -/
def initPoseState : PoseState :=
  { keypoints := fun _ => (0, 0, 0), detected := false }

/-- `PoseDetector::keypoint(int)`: out-of-range indices yield `glm::vec2(0)`,
in-range indices the stored `(x, y)` of the slot. -/
def poseKeypoint (s : PoseState) (index : ℤ) : ℚ × ℚ :=
  if h : 0 ≤ index ∧ index < 17 then
    ((s.keypoints ⟨index.toNat, by omega⟩).1, (s.keypoints ⟨index.toNat, by omega⟩).2.1)
  else (0, 0)

/-- `PoseDetector::confidence(int)`: out-of-range indices yield `0.0f`,
in-range indices the stored confidence of the slot. -/
def poseConfidence (s : PoseState) (index : ℤ) : ℚ :=
  if h : 0 ≤ index ∧ index < 17 then
    (s.keypoints ⟨index.toNat, by omega⟩).2.2
  else 0

/-- Number of joints of the candidate at buffer offset `off` whose confidence
(`data[off + i*3 + 2]`) is at or above the threshold (the `validCount`
accumulation of `processOutputTensor`). -/
def validCount (thr : ℚ) (data : List ℚ) (off : ℕ) : ℕ :=
  ((List.range 17).filter (fun i => decide (thr ≤ data.getD (off + 3 * i + 2) 0))).length

/-- Mean confidence over the 17 joints of the candidate at offset `off`
(`sumConf / 17.0f`). -/
def avgConf (data : List ℚ) (off : ℕ) : ℚ :=
  (((List.range 17).map (fun i => data.getD (off + 3 * i + 2) 0)).sum) / 17

/-- Accumulator of the multipose best-candidate scan
(`bestDetection`, `bestAvgConf`, `bestValidCount`). -/
structure BestAcc where
  bestDetection : ℤ
  bestAvgConf : ℚ
  bestValidCount : ℕ
deriving DecidableEq

/-- One iteration of the multipose best-candidate loop: candidate `d` replaces
the running best when `validCount > bestValidCount || (validCount ==
bestValidCount && avgConf > bestAvgConf)`. -/
def bestStep (thr : ℚ) (data : List ℚ) (acc : BestAcc) (d : ℕ) : BestAcc :=
  let v := validCount thr data (56 * d)
  let a := avgConf data (56 * d)
  if v > acc.bestValidCount ∨ (v = acc.bestValidCount ∧ a > acc.bestAvgConf) then
    ⟨(d : ℤ), a, v⟩
  else acc

/-- The keypoints written by a successful multipose decode of candidate `d`:
slot `i` receives `(x, y, conf) = (data[off+3i+1], data[off+3i+0],
data[off+3i+2])` (the model emits `(y, x, conf)`; the decoder swaps). -/
def multiKeypoints (data : List ℚ) (d : ℕ) : Fin 17 → Vec3 := fun i =>
  (data.getD (56 * d + 3 * i.val + 1) 0,
   data.getD (56 * d + 3 * i.val + 0) 0,
   data.getD (56 * d + 3 * i.val + 2) 0)

/-- The keypoints written by the single-subject decode: slot `i` receives
`(x, y, conf) = (data[3i+1], data[3i+0], data[3i+2])`. -/
def singleKeypoints (data : List ℚ) : Fin 17 → Vec3 := fun i =>
  (data.getD (3 * i.val + 1) 0,
   data.getD (3 * i.val + 0) 0,
   data.getD (3 * i.val + 2) 0)

/-- The full multipose best-candidate scan over candidates `0 .. n-1`. -/
def bestFold (thr : ℚ) (data : List ℚ) (n : ℕ) : BestAcc :=
  (List.range n).foldl (bestStep thr data) ⟨-1, 0, 0⟩

/-- `PoseDetector::processOutputTensor` (`src/unnamed/part_002:116`).
`m_detected` is first cleared; an empty buffer returns early.  A tensor with
336 elements or a 3-dimensional shape is decoded as multipose
(`size/56` candidates, best-candidate scan starting from
`(bestDetection, bestAvgConf, bestValidCount) = (-1, 0, 0)`, accepted only if
`bestDetection >= 0 && bestValidCount >= 5`); otherwise a buffer with fewer
than 51 elements returns early, and the single-subject layout writes all 17
slots and sets `m_detected = validKeypoints >= 5`. -/
def poseProcessOutput (thr : ℚ) (prev : PoseState) (t : Tensor) : PoseState :=
  if t.data = [] then { keypoints := prev.keypoints, detected := false }
  else if t.data.length = 336 ∨ t.shape.length = 3 then
    let n := t.data.length / 56
    let acc := bestFold thr t.data n
    if 0 ≤ acc.bestDetection ∧ 5 ≤ acc.bestValidCount then
      { keypoints := multiKeypoints t.data acc.bestDetection.toNat, detected := true }
    else { keypoints := prev.keypoints, detected := false }
  else if t.data.length < 51 then { keypoints := prev.keypoints, detected := false }
  else
    { keypoints := singleKeypoints t.data,
      detected := decide (5 ≤ validCount thr t.data 0) }

/-! ## Face decoder (`FaceDetector`, namespace `vivid::onnx`, `src/unnamed/part_003`) -/

/-- `struct DetectedFace` (`face_detector.h`): bounding box `(x, y, w, h)`,
6 landmarks, confidence.  The `std::array<glm::vec2, 6>` of landmarks is
modelled as a list of 6 coordinate pairs. -/
structure DetectedFace where
  bbox : ℚ × ℚ × ℚ × ℚ
  landmarks : List (ℚ × ℚ)
  confidence : ℚ
deriving DecidableEq

/-- `s_emptyFace = {}`: the zero-initialised sentinel face. -/
def emptyFace : DetectedFace :=
  { bbox := (0, 0, 0, 0), landmarks := List.replicate 6 (0, 0), confidence := 0 }

/-- `std::clamp(v, lo, hi)`. -/
def clampQ (v lo hi : ℚ) : ℚ :=
  if v < lo then lo else if hi < v then hi else v

/-- `FaceDetector::generateAnchors` (`src/unnamed/part_003:71`): the 16×16
grid with 2 anchors per cell followed by the 8×8 grid with 6 anchors per
cell, row-major (`y` outer, `x` inner), each anchor
`((x+0.5)/gridSize, (y+0.5)/gridSize, 1, 1)`. -/
def generateAnchors : List (ℚ × ℚ × ℚ × ℚ) :=
  ((List.range 16).flatMap (fun y => (List.range 16).flatMap (fun x =>
      (List.range 2).map (fun _ => (((x : ℚ) + 1/2) / 16, ((y : ℚ) + 1/2) / 16, 1, 1)))))
  ++ ((List.range 8).flatMap (fun y => (List.range 8).flatMap (fun x =>
      (List.range 6).map (fun _ => (((x : ℚ) + 1/2) / 8, ((y : ℚ) + 1/2) / 8, 1, 1)))))

/-- Index-closed form of the anchor list: anchor `i < 512` sits in cell
`i / 2` of the 16×16 grid (`x = cell % 16`, `y = cell / 16`); anchor
`512 + j` (`j < 384`) sits in cell `j / 6` of the 8×8 grid. -/
def anchorsSpec : List (ℚ × ℚ × ℚ × ℚ) :=
  ((List.range 512).map (fun i =>
      (((i / 2 % 16 : ℕ) + 1/2 : ℚ) / 16, ((i / 2 / 16 : ℕ) + 1/2 : ℚ) / 16, 1, 1)))
  ++ ((List.range 384).map (fun j =>
      (((j / 6 % 8 : ℕ) + 1/2 : ℚ) / 8, ((j / 6 / 8 : ℕ) + 1/2 : ℚ) / 8, 1, 1)))

/-- The shared per-anchor decode body (appears twice verbatim in the source:
inside `decodeDetections` and inlined in the 1-output branch of
`processOutputTensor`): the 16 regression values `box 0 .. box 15` are
divided by the fixed scale 128, offset by the anchor centre where
appropriate, converted to corner form and clamped into `[0, 1]`. -/
def decodeFaceFrom (i : ℕ) (score : ℚ) (box : ℕ → ℚ) : DetectedFace :=
  let a := generateAnchors.getD i (0, 0, 0, 0)
  let cx := box 0 / 128 + a.1
  let cy := box 1 / 128 + a.2.1
  let w := box 2 / 128
  let h := box 3 / 128
  { bbox := (clampQ (cx - w / 2) 0 1, clampQ (cy - h / 2) 0 1, clampQ w 0 1, clampQ h 0 1),
    landmarks := (List.range 6).map (fun l =>
      (clampQ (box (4 + 2 * l) / 128 + a.1) 0 1,
       clampQ (box (4 + 2 * l + 1) / 128 + a.2.1) 0 1)),
    confidence := score }

/-- Descending-confidence comparison used by the `std::sort` call
(`a.confidence > b.confidence`); modelled by its total closure so that a sort
along it exists (`std::sort` leaves the order of ties unspecified). -/
def confGE (a b : DetectedFace) : Prop := b.confidence ≤ a.confidence

instance : DecidableRel confGE :=
  fun a b => inferInstanceAs (Decidable (b.confidence ≤ a.confidence))

instance : IsTotal DetectedFace confGE :=
  ⟨fun a b => le_total b.confidence a.confidence⟩

instance : IsTrans DetectedFace confGE :=
  ⟨fun _ _ _ h1 h2 => le_trans h2 h1⟩

/-- `FaceDetector::decodeDetections` (`src/unnamed/part_003:271`): apply the
sigmoid (parameter `sig`) to every raw score, keep anchors at or above the
threshold, decode them, sort descending by confidence, and truncate to
`3 * maxFaces` candidates. -/
def decodeDetections (sig : ℚ → ℚ) (thr : ℚ) (mf : ℕ)
    (regressors scores : ℕ → ℚ) (numAnchors : ℕ) : List DetectedFace :=
  let candidates := (List.range numAnchors).filterMap (fun i =>
    if thr ≤ sig (scores i) then
      some (decodeFaceFrom i (sig (scores i)) (fun j => regressors (16 * i + j)))
    else none)
  (candidates.insertionSort confGE).take (3 * mf)

/-- The inline 1-output decode branch of `FaceDetector::processOutputTensor`
(`src/unnamed/part_003:219`): `valuesPerAnchor = size / numAnchors`; when it
is at least 17, walk the anchors in order while fewer than `maxFaces` faces
are collected, accepting anchors whose sigmoid score reaches the threshold.
No sorting and no `3 * maxFaces` truncation happen on this path. -/
def candidates1 (sig : ℚ → ℚ) (thr : ℚ) (mf : ℕ) (t : Tensor) : List DetectedFace :=
  if t.data = [] then []
  else
    let numAnchors := generateAnchors.length
    let vpa := t.data.length / numAnchors
    if 17 ≤ vpa then
      (List.range numAnchors).foldl (fun faces i =>
        if faces.length < mf then
          if thr ≤ sig (t.data.getD (i * vpa + 16) 0) then
            faces ++ [decodeFaceFrom i (sig (t.data.getD (i * vpa + 16) 0))
              (fun j => t.data.getD (i * vpa + j) 0)]
          else faces
        else faces) []
    else []

/-- The candidate list `m_faces` as it stands when `nonMaxSuppression()` is
invoked at the end of `FaceDetector::processOutputTensor`
(`src/unnamed/part_003:176`): dispatch on the number of output tensors
(4-output, `>= 2`-output, 1-output; anything else leaves the cleared list
empty), with the early returns for empty score/regressor buffers. -/
def faceCandidates (sig : ℚ → ℚ) (thr : ℚ) (mf : ℕ) (outputs : List Tensor) :
    List DetectedFace :=
  if outputs.length = 4 then
    match outputs with
    | [s1, s2, r1, r2] =>
      if s1.data = [] ∨ r1.data = [] then []
      else
        decodeDetections sig thr mf
          (fun i => (r1.data ++ r2.data).getD i 0)
          (fun i => (s1.data ++ s2.data).getD i 0)
          generateAnchors.length
    | _ => []
  else if 2 ≤ outputs.length then
    match outputs with
    | t0 :: t1 :: _ =>
      if t0.data = [] ∨ t1.data = [] then []
      else
        decodeDetections sig thr mf
          (fun i => t0.data.getD i 0)
          (fun i => t1.data.getD i 0)
          generateAnchors.length
    | _ => []
  else if outputs.length = 1 then
    match outputs with
    | [t] => candidates1 sig thr mf t
    | _ => []
  else []

/-- The IoU computation of `FaceDetector::nonMaxSuppression`
(`src/unnamed/part_003:350`), on boxes in `(x, y, w, h)` corner form. -/
def iouQ (a b : ℚ × ℚ × ℚ × ℚ) : ℚ :=
  let x1 := max a.1 b.1
  let y1 := max a.2.1 b.2.1
  let x2 := min (a.1 + a.2.2.1) (b.1 + b.2.2.1)
  let y2 := min (a.2.1 + a.2.2.2) (b.2.1 + b.2.2.2)
  let inter := max 0 (x2 - x1) * max 0 (y2 - y1)
  let areaA := a.2.2.1 * a.2.2.2
  let areaB := b.2.2.1 * b.2.2.2
  let uni := areaA + areaB - inter
  if 0 < uni then inter / uni else 0

/-- The inner suppression pass of `nonMaxSuppression`: once face `f` is kept,
every later entry whose IoU with `f` exceeds 0.3 has its `suppressed` flag
set (already-suppressed entries stay suppressed). -/
def nmsMark (f : DetectedFace) (e : ℕ × DetectedFace × Bool) : ℕ × DetectedFace × Bool :=
  (e.1, e.2.1, e.2.2 || decide ((3 : ℚ)/10 < iouQ f.bbox e.2.1.bbox))

/-- `FaceDetector::nonMaxSuppression` (`src/unnamed/part_003:331`), on the
list of remaining `(index, face, suppressed)` entries: stop when the kept
budget is exhausted (`kept.size() < m_maxFaces` in the loop condition), skip
suppressed entries, keep the first live entry and mark the later overlapping
ones. -/
def nmsGo : ℕ → List (ℕ × DetectedFace × Bool) → List (ℕ × DetectedFace)
  | _, [] => []
  | mf, e :: rest =>
    if mf = 0 then []
    else if e.2.2 then nmsGo mf rest
    else (e.1, e.2.1) :: nmsGo (mf - 1) (rest.map (nmsMark e.2.1))
termination_by _ l => l.length
decreasing_by
  all_goals simp [List.length_map]

/-- `FaceDetector::nonMaxSuppression` as a list transformer: all entries
start unsuppressed, and the kept faces are returned in kept order. -/
def nonMaxSuppression (mf : ℕ) (faces : List DetectedFace) : List DetectedFace :=
  (nmsGo mf (faces.enum.map (fun p => (p.1, p.2, false)))).map (fun p => p.2)

/-- The `(index, face)` pairs kept by non-max suppression, for stating
index-level properties. -/
def nmsKeptPairs (mf : ℕ) (faces : List DetectedFace) : List (ℕ × DetectedFace) :=
  nmsGo mf (faces.enum.map (fun p => (p.1, p.2, false)))

/-- Kept-list reformulation of the suppression loop: an entry's `suppressed`
flag at the moment the loop reaches it is set exactly when some already-kept
face overlaps it with IoU above 0.3, so the loop is equivalently driven by
the list of `(index, face)` pairs kept so far (`nmsGo_eq_nmsLoop` proves the
equivalence with the flag-based transcription `nmsGo`; the structural claim
proofs run over this form). -/
def nmsLoop (mf : ℕ) :
    List (ℕ × DetectedFace) → List (ℕ × DetectedFace) → List (ℕ × DetectedFace)
  | kept, [] => kept
  | kept, e :: rest =>
    if kept.length < mf then
      if kept.any (fun k => decide ((3 : ℚ)/10 < iouQ k.2.bbox e.2.bbox)) then
        nmsLoop mf kept rest
      else nmsLoop mf (kept ++ [e]) rest
    else kept

/-- `FaceDetector::processOutputTensor` end to end: build the candidate list
for the detected output arrangement, then run non-max suppression; the
result is the new `m_faces`. -/
def faceProcessOutput (sig : ℚ → ℚ) (thr : ℚ) (mf : ℕ) (outputs : List Tensor) :
    List DetectedFace :=
  nonMaxSuppression mf (faceCandidates sig thr mf outputs)

/-- `FaceDetector::face(int)`: out-of-range indices return the static
`s_emptyFace`. -/
def faceAt (faces : List DetectedFace) (index : ℤ) : DetectedFace :=
  if index < 0 ∨ (faces.length : ℤ) ≤ index then emptyFace
  else faces.getD index.toNat emptyFace

/-- `FaceDetector::boundingBox(int)`: out-of-range indices return
`glm::vec4(0)`. -/
def faceBoundingBox (faces : List DetectedFace) (index : ℤ) : ℚ × ℚ × ℚ × ℚ :=
  if index < 0 ∨ (faces.length : ℤ) ≤ index then (0, 0, 0, 0)
  else (faces.getD index.toNat emptyFace).bbox

/-- `FaceDetector::landmark(int, int)`: a face index outside
`[0, faceCount())` or a landmark index outside `[0, 6)` returns
`glm::vec2(0)`. -/
def faceLandmark (faces : List DetectedFace) (index lm : ℤ) : ℚ × ℚ :=
  if index < 0 ∨ (faces.length : ℤ) ≤ index ∨ lm < 0 ∨ 6 ≤ lm then (0, 0)
  else (faces.getD index.toNat emptyFace).landmarks.getD lm.toNat (0, 0)

/-- `FaceDetector::confidence(int)`: out-of-range indices return `0.0f`. -/
def faceConfidence (faces : List DetectedFace) (index : ℤ) : ℚ :=
  if index < 0 ∨ (faces.length : ℤ) ≤ index then 0
  else (faces.getD index.toNat emptyFace).confidence

/-! ## Input-tensor preparation on conversion failure -/

/-- `std::vector::resize(n)`: keep the first `n` elements, pad with
zero-initialised elements. -/
def resizeList {α : Type} (l : List α) (n : ℕ) (pad : α) : List α :=
  l.take n ++ List.replicate (n - l.length) pad

/-- The channel count both `prepareInputTensor` implementations read from the
incoming shape: `shape[3]` when the shape has at least 4 dimensions, else 3. -/
def prepChannels (t : Tensor) : ℤ :=
  if 4 ≤ t.shape.length then t.shape.getD 3 0 else 3

/-- The element count of the input tensor after its shape is forced to
`[1, inputHeight, inputWidth, channels]`. -/
def prepSize (inputHeight inputWidth : ℕ) (t : Tensor) : ℕ :=
  ({ t with shape := [1, (inputHeight : ℤ), (inputWidth : ℤ), prepChannels t] } : Tensor).size.toNat

/-- `PoseDetector::prepareInputTensor` (`src/unnamed/part_002:81`) on the
path where `textureToTensor` returns false (no pixel source): the shape is
forced to `[1, H, W, channels]`, the buffer picked by the resize chain is
resized to the new element count, and the buffer matching the tensor type is
filled with the placeholder (128 for uint8/int32, 0.5 for float).  The
successful path writes converted pixels instead and is not modelled. -/
def posePrepareOnFail (inputHeight inputWidth : ℕ) (t : Tensor) : Tensor :=
  let channels : ℤ := prepChannels t
  let t1 := { t with shape := [1, (inputHeight : ℤ), (inputWidth : ℤ), channels] }
  let sz := t1.size.toNat
  let t2 :=
    if t1.type = .uint8 ∧ t1.dataU8.length ≠ sz then
      { t1 with dataU8 := resizeList t1.dataU8 sz 0 }
    else if t1.type = .int32 ∧ t1.dataI32.length ≠ sz then
      { t1 with dataI32 := resizeList t1.dataI32 sz 0 }
    else if t1.data.length ≠ sz then
      { t1 with data := resizeList t1.data sz 0 }
    else t1
  if t2.type = .uint8 then { t2 with dataU8 := List.replicate t2.dataU8.length 128 }
  else if t2.type = .int32 then { t2 with dataI32 := List.replicate t2.dataI32.length 128 }
  else { t2 with data := List.replicate t2.data.length (1/2) }

/-- `FaceDetector::prepareInputTensor` (`src/unnamed/part_003:134`) on the
path where `textureToTensor` returns false: identical to the pose variant
except that float tensors are filled with `0.0f` (the mid value of the
`[-1, 1]` range BlazeFace expects). -/
def facePrepareOnFail (inputHeight inputWidth : ℕ) (t : Tensor) : Tensor :=
  let channels : ℤ := prepChannels t
  let t1 := { t with shape := [1, (inputHeight : ℤ), (inputWidth : ℤ), channels] }
  let sz := t1.size.toNat
  let t2 :=
    if t1.type = .uint8 ∧ t1.dataU8.length ≠ sz then
      { t1 with dataU8 := resizeList t1.dataU8 sz 0 }
    else if t1.type = .int32 ∧ t1.dataI32.length ≠ sz then
      { t1 with dataI32 := resizeList t1.dataI32 sz 0 }
    else if t1.data.length ≠ sz then
      { t1 with data := resizeList t1.data sz 0 }
    else t1
  if t2.type = .uint8 then { t2 with dataU8 := List.replicate t2.dataU8.length 128 }
  else if t2.type = .int32 then { t2 with dataI32 := List.replicate t2.dataI32.length 128 }
  else { t2 with data := List.replicate t2.data.length 0 }

/-! ## Concrete inputs used by witnesses and counterexamples -/

/-- Concrete tensor of shape `{2, 3, 4}` for the reshape witness. -/
def tEx : Tensor := ⟨[], [], [], [2, 3, 4], .float32⟩

/-- Tensor of shape `{1}` (size 1) showing the empty-reshape anomaly. -/
def tOne : Tensor := ⟨[5], [], [], [1], .float32⟩

/-- Concrete float tensor for the placeholder-fill witness. -/
def tFloat : Tensor := ⟨[7, 7], [3], [4], [1, 1, 1, 3], .float32⟩

/-- Single-subject tensor for the C4 witness: every confidence slot holds 1,
every y slot 0.2, every x slot 0.7. -/
def tSingle : Tensor :=
  ⟨(List.range 51).map (fun j => if j % 3 = 2 then 1 else if j % 3 = 0 then 2/10 else 7/10),
   [], [], [1, 1, 17, 3], .float32⟩

/-- Previous-frame state used by the C5 counterexample. -/
def prevC5 : PoseState := { keypoints := fun _ => (9, 9, 9), detected := true }

/-- All-zero single-subject tensor used by the C5 counterexample. -/
def tReject : Tensor := ⟨List.replicate 51 0, [], [], [1, 1, 17, 3], .float32⟩

/-- Empty output tensor for the C5 witness. -/
def tEmpty : Tensor := ⟨[], [], [], [], .float32⟩

/-- Multipose tensor for the C1 witness: candidate 1 (of 6) has all 17
confidences at 1, every other value is 0. -/
def tMulti : Tensor :=
  ⟨(List.range 336).map (fun j =>
      if 58 ≤ j ∧ j ≤ 106 ∧ (j - 58) % 3 = 0 then 1 else 0),
   [], [], [1, 6, 56], .float32⟩

/-- The per-face invariant of C10: bounding-box components and landmark
coordinates clamped into `[0, 1]`, confidence strictly inside `(0, 1)` and at
least the configured threshold. -/
def faceInv (thr : ℚ) (f : DetectedFace) : Prop :=
  (0 ≤ f.bbox.1 ∧ f.bbox.1 ≤ 1) ∧ (0 ≤ f.bbox.2.1 ∧ f.bbox.2.1 ≤ 1)
  ∧ (0 ≤ f.bbox.2.2.1 ∧ f.bbox.2.2.1 ≤ 1) ∧ (0 ≤ f.bbox.2.2.2 ∧ f.bbox.2.2.2 ≤ 1)
  ∧ (∀ p ∈ f.landmarks, (0 ≤ p.1 ∧ p.1 ≤ 1) ∧ (0 ≤ p.2 ∧ p.2 ≤ 1))
  ∧ thr ≤ f.confidence ∧ 0 < f.confidence ∧ f.confidence < 1

/-- A rational stand-in for the logistic sigmoid, used to instantiate the
`sig` parameter on concrete inputs: strictly increasing with range `(0, 1)`,
the two properties of `1/(1+exp(-x))` the decode logic relies on. -/
def sigC (s : ℚ) : ℚ := 1/2 + s / (2 * (1 + |s|))

/-- High-confidence face over the unit-corner box, for the NMS witness. -/
def fA : DetectedFace :=
  { bbox := (0, 0, 1/2, 1/2), landmarks := List.replicate 6 (0, 0), confidence := 9/10 }

/-- Face with the same box as `fA` (IoU 1) but lower confidence. -/
def fB : DetectedFace :=
  { bbox := (0, 0, 1/2, 1/2), landmarks := List.replicate 6 (0, 0), confidence := 8/10 }

/-- Face disjoint from `fA` (IoU 0) with the lowest confidence. -/
def fC : DetectedFace :=
  { bbox := (1/2, 1/2, 1/4, 1/4), landmarks := List.replicate 6 (0, 0), confidence := 7/10 }

/-- Single-output combined tensor (`896 × 17` values): anchor 0 carries raw
score 1, anchor 1 raw score 3, every other value is 0.  With `sigC` both
anchors clear a 0.5 threshold with confidences 3/4 then 7/8 — an ascending
order that exhibits the unsorted candidate list of the 1-output path. -/
def tCombined : Tensor :=
  ⟨(List.replicate 16 0 ++ [1]) ++ ((List.replicate 16 0 ++ [3])
      ++ List.replicate (15232 - 34) 0),
   [], [], [1, 896, 17], .float32⟩

/-- Regressor tensor (all reads default to 0) for the 2-output witness. -/
def tRegs : Tensor := ⟨[0], [], [], [1, 896, 16], .float32⟩

/-- Score tensor for the 2-output witness: anchors 0 and 1 carry raw scores
10 and 5 (both above a 3/4 threshold through `sigC`); every other anchor
reads 0, whose `sigC` value 1/2 is below the threshold. -/
def tScores : Tensor := ⟨[10, 5], [], [], [1, 896, 1], .float32⟩

/-! ## Theorems

The arithmetic operations on `ℚ` are sealed `@[irreducible]` by the library;
reopening them locally lets concrete computations go through `decide`. -/

attribute [local semireducible] Rat.add Rat.mul Rat.inv Rat.sub

set_option maxRecDepth 80000

/-- The anchor table has 896 entries (`16·16·2 + 8·8·6`). -/
theorem anchors_length : generateAnchors.length = 896 := by
  decide

/-- C6: `generateAnchors` produces exactly 896 anchors in the fixed
deterministic order: anchors `0..511` come from the 16×16 grid with 2 anchors
per cell (row-major, anchor `i` in cell `i / 2` with `x = (i/2) % 16`,
`y = (i/2) / 16`), anchors `512..895` from the 8×8 grid with 6 anchors per
cell, each anchor `((x+0.5)/gridSize, (y+0.5)/gridSize, 1, 1)`.  The anchor
list is a constant of the model: it is computed once and every decode path
only reads it. -/
theorem generateAnchors_closed_form :
    generateAnchors.length = 896 ∧ generateAnchors = anchorsSpec := by
  constructor
  · exact anchors_length
  · decide

/-- C8, corrected: `Tensor::reshape` fails exactly when the product of the new
dimensions differs from `size()`; on success only the shape metadata changes.
`size()` is preserved whenever the new shape is nonempty, but reshaping a
size-1 tensor to the empty shape succeeds (the empty product is 1) and
`size()` afterwards reports 0. -/
theorem reshape_size_characterisation (t : Tensor) (ns : List ℤ) :
    ((∃ t2, t.reshape ns = .ok t2) ↔ ns.foldl (· * ·) 1 = t.size)
    ∧ (∀ t2, t.reshape ns = .ok t2 →
        t2.data = t.data ∧ t2.dataU8 = t.dataU8 ∧ t2.dataI32 = t.dataI32
        ∧ t2.type = t.type ∧ t2.shape = ns
        ∧ (ns ≠ [] → t2.size = t.size)
        ∧ (ns = [] → t2.size = 0 ∧ t.size = 1)) := by
  by_cases h : ns.foldl (· * ·) 1 = t.size
  · have hok : t.reshape ns = .ok { t with shape := ns } := by
      simp only [Tensor.reshape]
      rw [if_neg (by simp [h])]
    constructor
    · exact ⟨fun _ => h, fun _ => ⟨_, hok⟩⟩
    · intro t2 ht
      rw [hok, Except.ok.injEq] at ht
      subst ht
      refine ⟨rfl, rfl, rfl, rfl, rfl, ?_, ?_⟩
      · intro hne
        simpa [Tensor.size, hne] using h
      · intro he
        subst he
        simp only [List.foldl_nil] at h
        exact ⟨by simp [Tensor.size], h.symm⟩
  · have herr : t.reshape ns = .error "Tensor reshape: size mismatch" := by
      simp only [Tensor.reshape]
      rw [if_pos h]
    constructor
    · constructor
      · rintro ⟨t2, ht⟩
        rw [herr] at ht
        exact Except.noConfusion ht
      · intro hc
        exact absurd hc h
    · intro t2 ht
      rw [herr] at ht
      exact Except.noConfusion ht

/-- Witness for C8's theorem: reshaping `{2,3,4}` (size 24) to `{4,6}`
succeeds and to `{10}` fails. -/
theorem reshape_size_characterisation_witness :
    (∃ t2, tEx.reshape [4, 6] = .ok t2) ∧ ¬ (∃ t2, tEx.reshape [10] = .ok t2) := by
  constructor
  · exact (reshape_size_characterisation tEx [4, 6]).1.mpr (by decide)
  · intro hc
    have h := (reshape_size_characterisation tEx [10]).1.mp hc
    exact absurd h (by decide)

/-- Counterexample to C8 as stated: reshaping the size-1 tensor `{1}` to the
empty shape `{}` succeeds (the product over the empty shape is the
accumulator 1, which equals `size()`), yet `size()` afterwards is 0, not the
original 1 — so "on success `size()` afterwards equals the original size"
fails. -/
theorem reshape_empty_shape_cex :
    tOne.reshape [] = .ok { tOne with shape := [] }
    ∧ ({ tOne with shape := ([] : List ℤ) } : Tensor).size = 0
    ∧ tOne.size = 1 := by
  refine ⟨?_, by decide, by decide⟩
  unfold Tensor.reshape
  simp [Tensor.size, tOne]

/-- C9: every indexed query accessor returns a zero-valued sentinel on an
out-of-range index (pose keypoint/confidence outside `[0, 17)`, face index
outside `[0, faceCount())`, landmark index outside `[0, 6)`), and before any
detection every pose keypoint reads as `(0, 0)` with confidence 0. -/
theorem accessors_zero_sentinel :
    (∀ (s : PoseState) (i : ℤ), (i < 0 ∨ 17 ≤ i) →
        poseKeypoint s i = (0, 0) ∧ poseConfidence s i = 0)
    ∧ (∀ i : ℤ, poseKeypoint initPoseState i = (0, 0)
        ∧ poseConfidence initPoseState i = 0)
    ∧ (∀ (fl : List DetectedFace) (i : ℤ), (i < 0 ∨ (fl.length : ℤ) ≤ i) →
        faceAt fl i = emptyFace ∧ faceBoundingBox fl i = (0, 0, 0, 0)
        ∧ faceConfidence fl i = 0)
    ∧ (∀ (fl : List DetectedFace) (i lm : ℤ),
        (i < 0 ∨ (fl.length : ℤ) ≤ i ∨ lm < 0 ∨ 6 ≤ lm) →
        faceLandmark fl i lm = (0, 0)) := by
  refine ⟨?_, ?_, ?_, ?_⟩
  · intro s i hi
    constructor
    · rw [poseKeypoint, dif_neg (by omega)]
    · rw [poseConfidence, dif_neg (by omega)]
  · intro i
    constructor
    · rw [poseKeypoint]
      split
      · rfl
      · rfl
    · rw [poseConfidence]
      split
      · rfl
      · rfl
  · intro fl i hi
    refine ⟨?_, ?_, ?_⟩
    · rw [faceAt, if_pos hi]
    · rw [faceBoundingBox, if_pos hi]
    · rw [faceConfidence, if_pos hi]
  · intro fl i lm h
    rw [faceLandmark, if_pos h]

/-- Witness for C9's theorem at concrete out-of-range indices and the initial
pose state. -/
theorem accessors_zero_sentinel_witness :
    poseKeypoint initPoseState (-1) = (0, 0)
    ∧ poseConfidence initPoseState 17 = 0
    ∧ faceAt [] 0 = emptyFace
    ∧ faceLandmark [emptyFace] 0 6 = (0, 0) := by
  obtain ⟨h1, _, h3, h4⟩ := accessors_zero_sentinel
  exact ⟨(h1 initPoseState (-1) (by omega)).1, (h1 initPoseState 17 (by omega)).2,
    (h3 [] 0 (by simp)).1, h4 [emptyFace] 0 6 (by simp)⟩

/-- `resizeList` always yields the requested length (as `std::vector::resize`
does). -/
theorem resizeList_length {α : Type} (l : List α) (n : ℕ) (pad : α) :
    (resizeList l n pad).length = n := by
  simp [resizeList]
  omega

/-- C7: when texture-to-tensor conversion fails, both detectors resize the
input tensor to its `[1, H, W, channels]` element count and fill the buffer
of the tensor's element type entirely with the deterministic placeholder:
128 for uint8 and int32 tensors, 0.5 for the pose detector's float tensors
(range `[0,1]`), 0.0 for the face detector's float tensors (range `[-1,1]`).
The failure is a boolean, handled locally (both modelled functions are total;
no exception path exists in the source). -/
theorem prepare_fail_placeholder_fill (inputHeight inputWidth : ℕ) (t : Tensor) :
    ((posePrepareOnFail inputHeight inputWidth t).shape
        = [1, (inputHeight : ℤ), (inputWidth : ℤ), prepChannels t])
    ∧ (t.type = .uint8 → (posePrepareOnFail inputHeight inputWidth t).dataU8
        = List.replicate (prepSize inputHeight inputWidth t) 128)
    ∧ (t.type = .int32 → (posePrepareOnFail inputHeight inputWidth t).dataI32
        = List.replicate (prepSize inputHeight inputWidth t) 128)
    ∧ (t.type = .float32 → (posePrepareOnFail inputHeight inputWidth t).data
        = List.replicate (prepSize inputHeight inputWidth t) (1/2))
    ∧ ((facePrepareOnFail inputHeight inputWidth t).shape
        = [1, (inputHeight : ℤ), (inputWidth : ℤ), prepChannels t])
    ∧ (t.type = .uint8 → (facePrepareOnFail inputHeight inputWidth t).dataU8
        = List.replicate (prepSize inputHeight inputWidth t) 128)
    ∧ (t.type = .int32 → (facePrepareOnFail inputHeight inputWidth t).dataI32
        = List.replicate (prepSize inputHeight inputWidth t) 128)
    ∧ (t.type = .float32 → (facePrepareOnFail inputHeight inputWidth t).data
        = List.replicate (prepSize inputHeight inputWidth t) 0) := by
  unfold posePrepareOnFail facePrepareOnFail
  simp only [prepSize]
  split_ifs with h1 h2 h3 <;>
    simp_all [resizeList_length, prepSize]

/-- Witness for C7's theorem: the pose path fills with 0.5, the face path
with 0.0. -/
theorem prepare_fail_placeholder_fill_witness :
    (posePrepareOnFail 1 1 tFloat).data = List.replicate (prepSize 1 1 tFloat) (1/2)
    ∧ (facePrepareOnFail 1 1 tFloat).data = List.replicate (prepSize 1 1 tFloat) 0 := by
  exact ⟨(prepare_fail_placeholder_fill 1 1 tFloat).2.2.2.1 rfl,
    (prepare_fail_placeholder_fill 1 1 tFloat).2.2.2.2.2.2.2 rfl⟩

/-- C4: on a single-subject tensor (not routed to the multipose branch, at
least 51 values) the decoder writes all 17 slots with the `(y, x, conf)`
triples swapped into `(x, y, conf)` order, and `detected()` is true exactly
when at least 5 of the 17 joints reach the threshold. -/
theorem pose_single_subject (thr : ℚ) (prev : PoseState) (t : Tensor)
    (hm : ¬(t.data.length = 336 ∨ t.shape.length = 3)) (h51 : 51 ≤ t.data.length) :
    ((poseProcessOutput thr prev t).detected = true ↔ 5 ≤ validCount thr t.data 0)
    ∧ ∀ i : Fin 17, (poseProcessOutput thr prev t).keypoints i
        = (t.data.getD (3 * i.val + 1) 0, t.data.getD (3 * i.val + 0) 0,
           t.data.getD (3 * i.val + 2) 0) := by
  have hne : t.data ≠ [] := by
    intro he
    rw [he] at h51
    simp at h51
  rw [poseProcessOutput, if_neg hne, if_neg hm, if_neg (by omega)]
  constructor
  · simp
  · intro i
    rfl

/-- Witness for C4's theorem: all 17 joints clear the 0.5 threshold, the
decode reports detected and stores keypoint 0 as `(x, y, conf) =
(0.7, 0.2, 1)` (swapped from the `(y, x, conf)` wire order). -/
theorem pose_single_subject_witness :
    (poseProcessOutput (1/2) initPoseState tSingle).detected = true
    ∧ (poseProcessOutput (1/2) initPoseState tSingle).keypoints 0 = (7/10, 2/10, 1) := by
  have h := pose_single_subject (1/2) initPoseState tSingle (by decide) (by decide)
  exact ⟨h.1.mpr (by decide), (h.2 0).trans (by decide)⟩

/-- Counterexample to C5 as stated: a single-subject decode whose 0 valid
joints reject the detection (`detected()` = false) still overwrites the
keypoint array — slot 0 moves from the previous frame's `(9,9,9)` to
`(0,0,0)`, so "on rejection the keypoint array retains its previous-frame
values" is false on the single-subject path. -/
theorem pose_rejection_overwrite_cex :
    (poseProcessOutput (1/2) prevC5 tReject).detected = false
    ∧ (poseProcessOutput (1/2) prevC5 tReject).keypoints 0 = (0, 0, 0)
    ∧ prevC5.keypoints 0 = (9, 9, 9) := by
  refine ⟨by decide, by decide, rfl⟩

/-- C5, amended: an empty output, an unknown layout, or a multipose decode
with no candidate reaching 5 valid joints leaves the keypoint array at its
previous-frame values with `detected` false, and a successful multipose
decode overwrites all 17 slots; but the single-subject path (≥ 51 values)
overwrites all 17 slots even when the decode is rejected (< 5 valid
joints) — only `detected` reports the rejection. -/
theorem pose_frame_effect (thr : ℚ) (prev : PoseState) (t : Tensor) :
    (t.data = [] →
        poseProcessOutput thr prev t = { keypoints := prev.keypoints, detected := false })
    ∧ ((t.data.length = 336 ∨ t.shape.length = 3) → t.data ≠ [] →
        (poseProcessOutput thr prev t).detected = false →
        (poseProcessOutput thr prev t).keypoints = prev.keypoints)
    ∧ ((t.data.length = 336 ∨ t.shape.length = 3) → t.data ≠ [] →
        (poseProcessOutput thr prev t).detected = true →
        ∃ b, (poseProcessOutput thr prev t).keypoints = multiKeypoints t.data b)
    ∧ (¬(t.data.length = 336 ∨ t.shape.length = 3) → t.data ≠ [] → t.data.length < 51 →
        poseProcessOutput thr prev t = { keypoints := prev.keypoints, detected := false })
    ∧ (¬(t.data.length = 336 ∨ t.shape.length = 3) → 51 ≤ t.data.length →
        (poseProcessOutput thr prev t).keypoints = singleKeypoints t.data
        ∧ ((poseProcessOutput thr prev t).detected = true
            ↔ 5 ≤ validCount thr t.data 0)) := by
  refine ⟨?_, ?_, ?_, ?_, ?_⟩
  · intro he
    rw [poseProcessOutput, if_pos he]
  · intro hm hne hdet
    rw [poseProcessOutput, if_neg hne, if_pos hm] at hdet ⊢
    by_cases hacc : 0 ≤ (bestFold thr t.data (t.data.length / 56)).bestDetection
        ∧ 5 ≤ (bestFold thr t.data (t.data.length / 56)).bestValidCount
    · rw [if_pos hacc] at hdet
      exact absurd hdet (by simp)
    · rw [if_neg hacc]
  · intro hm hne hdet
    rw [poseProcessOutput, if_neg hne, if_pos hm] at hdet ⊢
    by_cases hacc : 0 ≤ (bestFold thr t.data (t.data.length / 56)).bestDetection
        ∧ 5 ≤ (bestFold thr t.data (t.data.length / 56)).bestValidCount
    · rw [if_pos hacc]
      exact ⟨_, rfl⟩
    · rw [if_neg hacc] at hdet
      exact absurd hdet (by simp)
  · intro hm hne hlt
    rw [poseProcessOutput, if_neg hne, if_neg hm, if_pos hlt]
  · intro hm h51
    have hne : t.data ≠ [] := by
      intro he
      rw [he] at h51
      simp at h51
    rw [poseProcessOutput, if_neg hne, if_neg hm, if_neg (by omega)]
    exact ⟨rfl, by simp⟩

/-- Witness for C5's amended theorem: an empty output keeps the previous
keypoints and clears `detected`. -/
theorem pose_frame_effect_witness :
    poseProcessOutput (1/2) prevC5 tEmpty
      = { keypoints := prevC5.keypoints, detected := false } := by
  exact (pose_frame_effect (1/2) prevC5 tEmpty).1 rfl

/-- The best-candidate scan either never leaves its floor accumulator
`(-1, 0, 0)` — then every candidate has 0 valid joints and non-positive mean
confidence — or ends at some candidate `b` whose
`(validCount, avgConf)` pair no candidate lexicographically exceeds. -/
theorem bestFold_spec (thr : ℚ) (data : List ℚ) (n : ℕ) :
    (bestFold thr data n = ⟨-1, 0, 0⟩
      ∧ ∀ d < n, validCount thr data (56 * d) = 0 ∧ avgConf data (56 * d) ≤ 0)
    ∨ (∃ b < n, bestFold thr data n
          = ⟨(b : ℤ), avgConf data (56 * b), validCount thr data (56 * b)⟩
        ∧ ∀ d < n, validCount thr data (56 * d) < validCount thr data (56 * b)
            ∨ (validCount thr data (56 * d) = validCount thr data (56 * b)
               ∧ avgConf data (56 * d) ≤ avgConf data (56 * b))) := by
  induction n with
  | zero =>
    left
    exact ⟨rfl, fun d hd => absurd hd (by omega)⟩
  | succ n ih =>
    have hstep : bestFold thr data (n + 1) = bestStep thr data (bestFold thr data n) n := by
      rw [bestFold, bestFold, List.range_succ, List.foldl_append, List.foldl_cons,
        List.foldl_nil]
    rcases ih with ⟨hacc, hall⟩ | ⟨b, hb, hacc, hall⟩
    · rw [hstep, hacc]
      by_cases hc : validCount thr data (56 * n) > 0
          ∨ (validCount thr data (56 * n) = 0 ∧ avgConf data (56 * n) > 0)
      · right
        refine ⟨n, by omega, ?_, ?_⟩
        · simp only [bestStep]
          rw [if_pos hc]
        · intro d hd
          rcases Nat.lt_succ_iff_lt_or_eq.mp hd with hd' | rfl
          · obtain ⟨hv, ha⟩ := hall d hd'
            rcases hc with h | ⟨hv0, ha0⟩
            · left
              omega
            · right
              rw [hv, hv0]
              exact ⟨rfl, le_of_lt (lt_of_le_of_lt ha ha0)⟩
          · right
            exact ⟨rfl, le_refl _⟩
      · left
        constructor
        · simp only [bestStep]
          rw [if_neg hc]
        · intro d hd
          rcases Nat.lt_succ_iff_lt_or_eq.mp hd with hd' | rfl
          · exact hall d hd'
          · push_neg at hc
            exact ⟨by omega, hc.2 (by omega)⟩
    · rw [hstep, hacc]
      by_cases hc : validCount thr data (56 * n) > validCount thr data (56 * b)
          ∨ (validCount thr data (56 * n) = validCount thr data (56 * b)
             ∧ avgConf data (56 * n) > avgConf data (56 * b))
      · right
        refine ⟨n, by omega, ?_, ?_⟩
        · simp only [bestStep]
          rw [if_pos hc]
        · intro d hd
          rcases Nat.lt_succ_iff_lt_or_eq.mp hd with hd' | rfl
          · rcases hall d hd' with hlt | ⟨heq, hle⟩
            · rcases hc with h | ⟨heq2, _⟩
              · left
                omega
              · left
                omega
            · rcases hc with h | ⟨heq2, hgt⟩
              · left
                omega
              · right
                rw [heq, heq2]
                exact ⟨rfl, (lt_of_le_of_lt hle hgt).le⟩
          · right
            exact ⟨rfl, le_refl _⟩
      · refine .inr ⟨b, by omega, ?_, ?_⟩
        · simp only [bestStep]
          rw [if_neg hc]
        · intro d hd
          rcases Nat.lt_succ_iff_lt_or_eq.mp hd with hd' | rfl
          · exact hall d hd'
          · push_neg at hc
            rcases Nat.lt_or_ge (validCount thr data (56 * d))
                (validCount thr data (56 * b)) with h | h
            · left
              exact h
            · right
              have heq : validCount thr data (56 * d) = validCount thr data (56 * b) := by
                omega
              exact ⟨heq, hc.2 heq⟩

/-- C1: on a multipose tensor (336 elements or 3-dimensional shape, nonempty
data, `n = size / 56` candidates) the decoder reports a detection exactly
when some candidate has at least 5 joints above threshold, and on detection
the keypoint slots hold the 17 swapped `(x, y, conf)` triples of a winner —
a candidate with at least 5 valid joints whose
`(validCount, meanConfidence)` pair is a lexicographic maximum over all
candidates; without a detection the keypoints stay at their previous values. -/
theorem pose_multipose_lex_selection (thr : ℚ) (prev : PoseState) (t : Tensor)
    (hm : t.data.length = 336 ∨ t.shape.length = 3) (hne : t.data ≠ []) :
    ((poseProcessOutput thr prev t).detected = true
        ↔ ∃ d < t.data.length / 56, 5 ≤ validCount thr t.data (56 * d))
    ∧ ((poseProcessOutput thr prev t).detected = true →
        ∃ b < t.data.length / 56, 5 ≤ validCount thr t.data (56 * b)
          ∧ (poseProcessOutput thr prev t).keypoints = multiKeypoints t.data b
          ∧ ∀ d < t.data.length / 56,
              validCount thr t.data (56 * d) < validCount thr t.data (56 * b)
              ∨ (validCount thr t.data (56 * d) = validCount thr t.data (56 * b)
                 ∧ avgConf t.data (56 * d) ≤ avgConf t.data (56 * b)))
    ∧ ((poseProcessOutput thr prev t).detected = false →
        (poseProcessOutput thr prev t).keypoints = prev.keypoints) := by
  rw [poseProcessOutput, if_neg hne, if_pos hm]
  rcases bestFold_spec thr t.data (t.data.length / 56) with ⟨hacc, hall⟩ |
      ⟨b, hb, hacc, hall⟩
  · have hrej : ¬(0 ≤ (bestFold thr t.data (t.data.length / 56)).bestDetection
        ∧ 5 ≤ (bestFold thr t.data (t.data.length / 56)).bestValidCount) := by
      rw [hacc]
      decide
    rw [if_neg hrej]
    refine ⟨?_, ?_, ?_⟩
    · simp only [Bool.false_eq_true, false_iff]
      rintro ⟨d, hd, h5⟩
      have := (hall d hd).1
      omega
    · intro hcon
      exact absurd hcon (by simp)
    · intro _
      rfl
  · by_cases hacc5 : 5 ≤ validCount thr t.data (56 * b)
    · have hdet : (0 ≤ (bestFold thr t.data (t.data.length / 56)).bestDetection
          ∧ 5 ≤ (bestFold thr t.data (t.data.length / 56)).bestValidCount) := by
        rw [hacc]
        exact ⟨Int.natCast_nonneg b, hacc5⟩
      rw [if_pos hdet]
      refine ⟨?_, ?_, ?_⟩
      · simp only [true_iff]
        exact ⟨b, hb, hacc5⟩
      · intro _
        refine ⟨b, hb, hacc5, ?_, hall⟩
        have htn : (bestFold thr t.data (t.data.length / 56)).bestDetection.toNat = b := by
          rw [hacc]
          simp
        rw [htn]
      · intro hcon
        exact absurd hcon (by simp)
    · have hrej : ¬(0 ≤ (bestFold thr t.data (t.data.length / 56)).bestDetection
          ∧ 5 ≤ (bestFold thr t.data (t.data.length / 56)).bestValidCount) := by
        rw [hacc]
        intro hcon
        exact absurd hcon.2 hacc5
      rw [if_neg hrej]
      refine ⟨?_, ?_, ?_⟩
      · simp only [Bool.false_eq_true, false_iff]
        rintro ⟨d, hd, h5⟩
        rcases hall d hd with hlt | ⟨heq, _⟩
        · omega
        · omega
      · intro hcon
        exact absurd hcon (by simp)
      · intro _
        rfl

/-- Witness for C1's theorem: candidate 1's 17 valid joints produce a
detection. -/
theorem pose_multipose_lex_selection_witness :
    (poseProcessOutput (1/2) initPoseState tMulti).detected = true := by
  have h := pose_multipose_lex_selection (1/2) initPoseState tMulti (by decide) (by decide)
  exact h.1.mpr ⟨1, by decide, by decide⟩

/-- `nmsMark` changes only the suppression flag: indices and faces survive. -/
theorem nmsMark_map_proj (f : DetectedFace) (l : List (ℕ × DetectedFace × Bool)) :
    (l.map (nmsMark f)).map (fun e => (e.1, e.2.1)) = l.map (fun e => (e.1, e.2.1)) := by
  induction l with
  | nil => rfl
  | cons e rest ih => simp [nmsMark, ih]

/-- The flag-based transcription `nmsGo` agrees with the kept-list loop
`nmsLoop`, provided every entry's flag says exactly "some kept face overlaps
me with IoU above 0.3" and the remaining budget `b` plus the kept count is
the face cap. -/
theorem nmsGo_eq_nmsLoop (n : ℕ) :
    ∀ (l : List (ℕ × DetectedFace × Bool)), l.length = n →
    ∀ (kept : List (ℕ × DetectedFace)) (b mf : ℕ), b + kept.length = mf →
    (∀ e ∈ l, e.2.2 = kept.any (fun k => decide ((3 : ℚ)/10 < iouQ k.2.bbox e.2.1.bbox))) →
    kept ++ nmsGo b l = nmsLoop mf kept (l.map (fun e => (e.1, e.2.1))) := by
  induction n using Nat.strong_induction_on with
  | _ n ih =>
    intro l hl kept b mf hbm hflag
    match l with
    | [] => simp [nmsGo, nmsLoop]
    | (i, f, s) :: rest =>
      have hlr : rest.length < n := by
        simp only [List.length_cons] at hl
        omega
      rcases Nat.eq_zero_or_pos b with hb0 | hbpos
      · subst hb0
        have hcap : ¬ kept.length < mf := by omega
        simp [nmsGo, nmsLoop, hcap]
      · have hcap : kept.length < mf := by omega
        have hbne : ¬ b = 0 := by omega
        have hfhead := hflag (i, f, s) (List.mem_cons_self _ _)
        cases s with
        | true =>
          have hsup : (kept.any fun k => decide ((3 : ℚ)/10 < iouQ k.2.bbox f.bbox)) = true :=
            hfhead.symm
          have hgo : nmsGo b ((i, f, true) :: rest) = nmsGo b rest := by
            simp only [nmsGo]
            rw [if_neg hbne]
            simp
          rw [hgo]
          have hrec := ih rest.length hlr rest rfl kept b mf hbm
            (fun e he => hflag e (List.mem_cons_of_mem _ he))
          rw [hrec, List.map_cons]
          simp [nmsLoop, hcap, hsup]
        | false =>
          have hsup : (kept.any fun k => decide ((3 : ℚ)/10 < iouQ k.2.bbox f.bbox)) = false :=
            hfhead.symm
          have hgo : nmsGo b ((i, f, false) :: rest)
              = (i, f) :: nmsGo (b - 1) (rest.map (nmsMark f)) := by
            simp only [nmsGo]
            rw [if_neg hbne]
            simp
          rw [hgo]
          have hflag2 : ∀ e ∈ rest.map (nmsMark f),
              e.2.2 = (kept ++ [(i, f)]).any
                (fun k => decide ((3 : ℚ)/10 < iouQ k.2.bbox e.2.1.bbox)) := by
            intro e he
            obtain ⟨e0, he0, rfl⟩ := List.mem_map.mp he
            have h0 := hflag e0 (List.mem_cons_of_mem _ he0)
            simp only [nmsMark, List.any_append, List.any_cons, List.any_nil, Bool.or_false]
            rw [h0]
          have hrec := ih (rest.map (nmsMark f)).length
            (by simpa using hlr)
            (rest.map (nmsMark f)) rfl (kept ++ [(i, f)]) (b - 1) mf
            (by simp only [List.length_append, List.length_cons, List.length_nil]; omega)
            hflag2
          rw [nmsMark_map_proj] at hrec
          have hassoc : kept ++ (i, f) :: nmsGo (b - 1) (rest.map (nmsMark f))
              = (kept ++ [(i, f)]) ++ nmsGo (b - 1) (rest.map (nmsMark f)) := by
            simp
          rw [hassoc, hrec, List.map_cons]
          simp [nmsLoop, hcap, hsup]

/-- The kept pairs of `nonMaxSuppression` are computed by the kept-list
loop started from an empty kept list. -/
theorem nmsKeptPairs_eq_loop (mf : ℕ) (faces : List DetectedFace) :
    nmsKeptPairs mf faces = nmsLoop mf [] faces.enum := by
  have h := nmsGo_eq_nmsLoop (faces.enum.map (fun p => (p.1, p.2, false))).length
    (faces.enum.map (fun p => (p.1, p.2, false))) rfl [] mf mf (by simp) (by simp)
  rw [List.nil_append] at h
  have h2 : (faces.enum.map (fun p => (p.1, p.2, false))).map
      (fun e : ℕ × DetectedFace × Bool => (e.1, e.2.1)) = faces.enum := by
    rw [List.map_map]
    have hcomp : ((fun e : ℕ × DetectedFace × Bool => (e.1, e.2.1))
        ∘ (fun p : ℕ × DetectedFace => (p.1, p.2, false))) = id := by
      funext p
      rfl
    rw [hcomp, List.map_id]
  rw [h2] at h
  exact h

/-- The kept-list loop only ever appends: its result is the initial kept list
followed by a subsequence of the input. -/
theorem nmsLoop_prefix (l : List (ℕ × DetectedFace)) :
    ∀ (kept : List (ℕ × DetectedFace)) (mf : ℕ),
    ∃ s, nmsLoop mf kept l = kept ++ s ∧ List.Sublist s l := by
  induction l with
  | nil =>
    intro kept mf
    exact ⟨[], by simp [nmsLoop], List.nil_sublist _⟩
  | cons e rest ih =>
    intro kept mf
    simp only [nmsLoop]
    by_cases hcap : kept.length < mf
    · rw [if_pos hcap]
      by_cases hsup : kept.any (fun k => decide ((3 : ℚ)/10 < iouQ k.2.bbox e.2.bbox)) = true
      · rw [if_pos hsup]
        obtain ⟨s, hs, hsub⟩ := ih kept mf
        exact ⟨s, hs, hsub.cons e⟩
      · rw [if_neg hsup]
        obtain ⟨s, hs, hsub⟩ := ih (kept ++ [e]) mf
        exact ⟨e :: s, by rw [hs]; simp, hsub.cons₂ e⟩
    · rw [if_neg hcap]
      exact ⟨[], by simp, List.nil_sublist _⟩

/-- The kept-list loop never exceeds the face cap. -/
theorem nmsLoop_length_le (l : List (ℕ × DetectedFace)) :
    ∀ (kept : List (ℕ × DetectedFace)) (mf : ℕ), kept.length ≤ mf →
    (nmsLoop mf kept l).length ≤ mf := by
  induction l with
  | nil =>
    intro kept mf h
    simpa [nmsLoop] using h
  | cons e rest ih =>
    intro kept mf h
    simp only [nmsLoop]
    by_cases hcap : kept.length < mf
    · rw [if_pos hcap]
      by_cases hsup : kept.any (fun k => decide ((3 : ℚ)/10 < iouQ k.2.bbox e.2.bbox)) = true
      · rw [if_pos hsup]
        exact ih kept mf h
      · rw [if_neg hsup]
        refine ih (kept ++ [e]) mf ?_
        simp only [List.length_append, List.length_cons, List.length_nil]
        omega
    · rw [if_neg hcap]
      exact h

/-- Suppression: an input entry overlapped (IoU above 0.3) by a kept entry of
smaller index is never among the kept indices. -/
theorem nmsLoop_suppression (l : List (ℕ × DetectedFace)) :
    ∀ (kept : List (ℕ × DetectedFace)) (mf : ℕ),
    (∀ k ∈ kept, ∀ x ∈ l, k.1 < x.1) →
    (l.map Prod.fst).Pairwise (· < ·) →
    ∀ j g, (j, g) ∈ l →
    (∃ p ∈ nmsLoop mf kept l, p.1 < j ∧ (3 : ℚ)/10 < iouQ p.2.bbox g.bbox) →
    j ∉ (nmsLoop mf kept l).map Prod.fst := by
  induction l with
  | nil =>
    intro kept mf _ _ j g hj
    exact absurd hj (List.not_mem_nil _)
  | cons e rest ih =>
    intro kept mf hlt hsort j g hj hkeeper
    have hklt : ∀ k ∈ kept, k.1 < j := fun k hk => hlt k hk (j, g) hj
    rw [List.map_cons] at hsort
    have hheadlt : ∀ x ∈ rest, e.1 < x.1 := by
      intro x hx
      exact (List.pairwise_cons.mp hsort).1 x.1 (List.mem_map_of_mem Prod.fst hx)
    have hlt2 : ∀ k ∈ kept ++ [e], ∀ x ∈ rest, k.1 < x.1 := by
      intro k hk x hx
      rcases List.mem_append.mp hk with h1 | h2
      · exact hlt k h1 x (List.mem_cons_of_mem e hx)
      · rw [List.mem_singleton] at h2
        subst h2
        exact hheadlt x hx
    have hlt1 : ∀ k ∈ kept, ∀ x ∈ rest, k.1 < x.1 :=
      fun k hk x hx => hlt k hk x (List.mem_cons_of_mem e hx)
    have hsort2 : (rest.map Prod.fst).Pairwise (· < ·) := (List.pairwise_cons.mp hsort).2
    by_cases hcap : kept.length < mf
    · by_cases hsup : kept.any (fun k => decide ((3 : ℚ)/10 < iouQ k.2.bbox e.2.bbox)) = true
      · have hres : nmsLoop mf kept (e :: rest) = nmsLoop mf kept rest := by
          simp only [nmsLoop]
          rw [if_pos hcap, if_pos hsup]
        rw [hres] at hkeeper ⊢
        rcases List.mem_cons.mp hj with heq | hmem
        · obtain ⟨s, hs, hsub⟩ := nmsLoop_prefix rest kept mf
          rw [hs]
          intro hmemj
          rw [List.map_append, List.mem_append] at hmemj
          rcases hmemj with hk | hk
          · obtain ⟨p, hp, hpj⟩ := List.mem_map.mp hk
            have := hklt p hp
            omega
          · obtain ⟨p, hp, hpj⟩ := List.mem_map.mp hk
            have hpr : p ∈ rest := hsub.subset hp
            have := hheadlt p hpr
            rw [← heq] at this
            omega
        · exact ih kept mf hlt1 hsort2 j g hmem hkeeper
      · have hres : nmsLoop mf kept (e :: rest) = nmsLoop mf (kept ++ [e]) rest := by
          simp only [nmsLoop]
          rw [if_pos hcap, if_neg hsup]
        rw [hres] at hkeeper ⊢
        rcases List.mem_cons.mp hj with heq | hmem
        · exfalso
          obtain ⟨p, hp, hpj, hpiou⟩ := hkeeper
          obtain ⟨s, hs, hsub⟩ := nmsLoop_prefix rest (kept ++ [e]) mf
          rw [hs, List.append_assoc, List.mem_append] at hp
          rcases hp with hpk | hpe
          · have : decide ((3 : ℚ)/10 < iouQ p.2.bbox e.2.bbox) = true :=
              decide_eq_true (by rw [← heq]; exact hpiou)
            have hany : kept.any (fun k => decide ((3 : ℚ)/10 < iouQ k.2.bbox e.2.bbox)) = true :=
              List.any_eq_true.mpr ⟨p, hpk, this⟩
            exact hsup hany
          · rcases List.mem_cons.mp hpe with hpeq | hps
            · subst hpeq
              rw [← heq] at hpj
              omega
            · have hpr : p ∈ rest := hsub.subset hps
              have := hheadlt p hpr
              rw [← heq] at this
              omega
        · exact ih (kept ++ [e]) mf hlt2 hsort2 j g hmem hkeeper
    · have hres : nmsLoop mf kept (e :: rest) = kept := by
        simp only [nmsLoop]
        rw [if_neg hcap]
      rw [hres]
      intro hmemj
      obtain ⟨p, hp, hpj⟩ := List.mem_map.mp hmemj
      have := hklt p hp
      omega

/-- Survival: an input entry overlapped by no kept entry of smaller index
is kept, as long as fewer than `maxFaces` entries of smaller index are
kept. -/
theorem nmsLoop_survival (l : List (ℕ × DetectedFace)) :
    ∀ (kept : List (ℕ × DetectedFace)) (mf : ℕ),
    (∀ k ∈ kept, ∀ x ∈ l, k.1 < x.1) →
    (l.map Prod.fst).Pairwise (· < ·) →
    ∀ j g, (j, g) ∈ l →
    (∀ p ∈ nmsLoop mf kept l, p.1 < j → iouQ p.2.bbox g.bbox ≤ (3 : ℚ)/10) →
    ((nmsLoop mf kept l).filter (fun p => decide (p.1 < j))).length < mf →
    (j, g) ∈ nmsLoop mf kept l := by
  induction l with
  | nil =>
    intro kept mf _ _ j g hj
    exact absurd hj (List.not_mem_nil _)
  | cons e rest ih =>
    intro kept mf hlt hsort j g hj hno hcount
    have hklt : ∀ k ∈ kept, k.1 < j := fun k hk => hlt k hk (j, g) hj
    rw [List.map_cons] at hsort
    have hheadlt : ∀ x ∈ rest, e.1 < x.1 := by
      intro x hx
      exact (List.pairwise_cons.mp hsort).1 x.1 (List.mem_map_of_mem Prod.fst hx)
    have hlt2 : ∀ k ∈ kept ++ [e], ∀ x ∈ rest, k.1 < x.1 := by
      intro k hk x hx
      rcases List.mem_append.mp hk with h1 | h2
      · exact hlt k h1 x (List.mem_cons_of_mem e hx)
      · rw [List.mem_singleton] at h2
        subst h2
        exact hheadlt x hx
    have hlt1 : ∀ k ∈ kept, ∀ x ∈ rest, k.1 < x.1 :=
      fun k hk x hx => hlt k hk x (List.mem_cons_of_mem e hx)
    have hsort2 : (rest.map Prod.fst).Pairwise (· < ·) := (List.pairwise_cons.mp hsort).2
    by_cases hcap : kept.length < mf
    · rcases List.mem_cons.mp hj with heq | hmem
      · have hsup : kept.any (fun k => decide ((3 : ℚ)/10 < iouQ k.2.bbox e.2.bbox)) = false := by
          rw [List.any_eq_false]
          intro k hk
          simp only [decide_eq_true_eq]
          obtain ⟨s, hs, _⟩ := nmsLoop_prefix (e :: rest) kept mf
          have hkin : k ∈ nmsLoop mf kept (e :: rest) := by
            rw [hs]
            exact List.mem_append_left _ hk
          have := hno k hkin (hklt k hk)
          rw [← heq]
          exact not_lt.mpr this
        have hres : nmsLoop mf kept (e :: rest) = nmsLoop mf (kept ++ [e]) rest := by
          simp only [nmsLoop]
          rw [if_pos hcap, if_neg (by simp [hsup])]
        rw [hres]
        obtain ⟨s, hs, _⟩ := nmsLoop_prefix rest (kept ++ [e]) mf
        rw [hs, heq]
        exact List.mem_append_left _ (List.mem_append_right _ (List.mem_singleton_self _))
      · by_cases hsup : kept.any (fun k => decide ((3 : ℚ)/10 < iouQ k.2.bbox e.2.bbox)) = true
        · have hres : nmsLoop mf kept (e :: rest) = nmsLoop mf kept rest := by
            simp only [nmsLoop]
            rw [if_pos hcap, if_pos hsup]
          rw [hres] at hno hcount ⊢
          exact ih kept mf hlt1 hsort2 j g hmem hno hcount
        · have hres : nmsLoop mf kept (e :: rest) = nmsLoop mf (kept ++ [e]) rest := by
            simp only [nmsLoop]
            rw [if_pos hcap, if_neg hsup]
          rw [hres] at hno hcount ⊢
          exact ih (kept ++ [e]) mf hlt2 hsort2 j g hmem hno hcount
    · exfalso
      have hres : nmsLoop mf kept (e :: rest) = kept := by
        simp only [nmsLoop]
        rw [if_neg hcap]
      rw [hres] at hcount
      have hfe : kept.filter (fun p => decide (p.1 < j)) = kept :=
        List.filter_eq_self.mpr (fun a ha => decide_eq_true (hklt a ha))
      rw [hfe] at hcount
      omega

/-- C2: greedy non-max suppression on a confidence-sorted candidate list.
The output is a subsequence of the input (hence still confidence-descending),
holds at most `maxFaces` faces, and its kept index set `K` is exactly the
greedy one: an entry overlapping (IoU above 0.3) some kept entry of smaller
index is dropped; an entry overlapping no kept entry of smaller index is kept
whenever fewer than `maxFaces` smaller-index entries are kept; and every
dropped entry is dropped for one of those two reasons (so the kept faces are
the highest-confidence unsuppressed ones). -/
theorem face_nms_greedy (mf : ℕ) (faces : List DetectedFace)
    (hsorted : faces.Pairwise (fun a b => b.confidence ≤ a.confidence)) :
    List.Sublist (nonMaxSuppression mf faces) faces
    ∧ (nonMaxSuppression mf faces).Pairwise (fun a b => b.confidence ≤ a.confidence)
    ∧ (nonMaxSuppression mf faces).length ≤ mf
    ∧ (∀ p ∈ nmsKeptPairs mf faces, ∀ e ∈ faces.enum, p.1 < e.1 →
        (3 : ℚ)/10 < iouQ p.2.bbox e.2.bbox →
        e.1 ∉ (nmsKeptPairs mf faces).map Prod.fst)
    ∧ (∀ e ∈ faces.enum,
        (∀ p ∈ nmsKeptPairs mf faces, p.1 < e.1 → iouQ p.2.bbox e.2.bbox ≤ (3 : ℚ)/10) →
        ((nmsKeptPairs mf faces).filter (fun p => decide (p.1 < e.1))).length < mf →
        e ∈ nmsKeptPairs mf faces)
    ∧ (∀ e ∈ faces.enum, e ∉ nmsKeptPairs mf faces →
        (∃ p ∈ nmsKeptPairs mf faces, p.1 < e.1 ∧ (3 : ℚ)/10 < iouQ p.2.bbox e.2.bbox)
        ∨ mf ≤ ((nmsKeptPairs mf faces).filter (fun p => decide (p.1 < e.1))).length) := by
  have hloop := nmsKeptPairs_eq_loop mf faces
  have hltnil : ∀ k ∈ ([] : List (ℕ × DetectedFace)), ∀ x ∈ faces.enum, k.1 < x.1 := by
    intro k hk
    exact absurd hk (List.not_mem_nil _)
  have hsortenum : (faces.enum.map Prod.fst).Pairwise (· < ·) := by
    rw [List.enum_map_fst]
    exact List.pairwise_lt_range _
  have hKsub : List.Sublist (nmsKeptPairs mf faces) faces.enum := by
    obtain ⟨s, hs, hsub⟩ := nmsLoop_prefix faces.enum [] mf
    rw [hloop, hs, List.nil_append]
    exact hsub
  have houtsub : List.Sublist (nonMaxSuppression mf faces) faces := by
    have h2 := hKsub.map (fun p => p.2)
    rw [show faces.enum.map (fun p : ℕ × DetectedFace => p.2) = faces from
      List.enum_map_snd faces] at h2
    exact h2
  refine ⟨houtsub, hsorted.sublist houtsub, ?_, ?_, ?_, ?_⟩
  · have h := nmsLoop_length_le faces.enum [] mf (by simp)
    rw [← hloop] at h
    simpa [nonMaxSuppression, nmsKeptPairs] using h
  · intro p hp e he hpe hiou
    rw [hloop] at hp ⊢
    have := nmsLoop_suppression faces.enum [] mf hltnil hsortenum e.1 e.2
      (by simpa using he) ⟨p, hp, hpe, hiou⟩
    exact this
  · intro e he hno hcount
    rw [hloop] at hno hcount ⊢
    have := nmsLoop_survival faces.enum [] mf hltnil hsortenum e.1 e.2
      (by simpa using he) hno hcount
    simpa using this
  · intro e he hnotmem
    by_cases h1 : ∀ p ∈ nmsKeptPairs mf faces, p.1 < e.1 → iouQ p.2.bbox e.2.bbox ≤ (3 : ℚ)/10
    · by_cases h2 : ((nmsKeptPairs mf faces).filter (fun p => decide (p.1 < e.1))).length < mf
      · exfalso
        rw [hloop] at h1 h2 hnotmem
        have := nmsLoop_survival faces.enum [] mf hltnil hsortenum e.1 e.2
          (by simpa using he) h1 h2
        exact hnotmem (by simpa using this)
      · right
        omega
    · left
      push_neg at h1
      obtain ⟨p, hp, hpe, hiou⟩ := h1
      exact ⟨p, hp, hpe, hiou⟩

/-- Witness for C2's theorem on the concrete sorted list `[fA, fB, fC]` with
`maxFaces = 10`: the cap is respected and the zero-index entry (no kept
entry precedes it) is kept. -/
theorem face_nms_greedy_witness :
    (nonMaxSuppression 10 [fA, fB, fC]).length ≤ 10
    ∧ (0, fA) ∈ nmsKeptPairs 10 [fA, fB, fC] := by
  have h := face_nms_greedy 10 [fA, fB, fC] (by decide)
  refine ⟨h.2.2.1, ?_⟩
  refine h.2.2.2.2.1 (0, fA) (by decide) ?_ ?_
  · intro p _ hplt
    exact absurd hplt (by omega)
  · have hfe : ((nmsKeptPairs 10 [fA, fB, fC]).filter
        (fun p => decide (p.1 < (0, fA).1))).length = 0 := by
      simp
    omega

/-- `sigC` has the sigmoid's range: strictly between 0 and 1. -/
theorem sigC_range : ∀ s : ℚ, 0 < sigC s ∧ sigC s < 1 := by
  intro s
  have hd : (0 : ℚ) < 2 * (1 + |s|) := by positivity
  have habs := abs_nonneg s
  have h1 : s / (2 * (1 + |s|)) < 1/2 := by
    rw [div_lt_iff₀ hd]
    have hs := le_abs_self s
    linarith
  have h2 : -(1/2 : ℚ) < s / (2 * (1 + |s|)) := by
    rw [lt_div_iff₀ hd]
    have hs := neg_abs_le s
    linarith
  constructor
  · rw [sigC]
    linarith
  · rw [sigC]
    linarith

/-- `std::clamp` into `[0, 1]` lands in `[0, 1]`. -/
theorem clampQ_mem (v : ℚ) : 0 ≤ clampQ v 0 1 ∧ clampQ v 0 1 ≤ 1 := by
  rw [clampQ]
  split_ifs with h1 h2
  · norm_num
  · norm_num
  · constructor
    · linarith [not_lt.mp h1]
    · linarith [not_lt.mp h2]

/-- The shared decode helper sorts descending by confidence and truncates to
`3 * maxFaces`. -/
theorem decodeDetections_sorted_le (sig : ℚ → ℚ) (thr : ℚ) (mf : ℕ)
    (regressors scores : ℕ → ℚ) (numAnchors : ℕ) :
    (decodeDetections sig thr mf regressors scores numAnchors).Pairwise
      (fun a b => b.confidence ≤ a.confidence)
    ∧ (decodeDetections sig thr mf regressors scores numAnchors).length ≤ 3 * mf := by
  constructor
  · have hs := List.sorted_insertionSort confGE
      ((List.range numAnchors).filterMap (fun i =>
        let score := sig (scores i)
        if thr ≤ score then some (decodeFaceFrom i score (fun j => regressors (16 * i + j)))
        else none))
    simp only [decodeDetections]
    exact hs.sublist (List.take_sublist _ _)
  · simp only [decodeDetections]
    exact List.length_take_le _ _

/-- The 2-output branch body (early return on empty buffers, then the shared
decode helper) is sorted and truncated. -/
theorem twoOut_sorted_le (sig : ℚ → ℚ) (thr : ℚ) (mf : ℕ) (t0 t1 : Tensor) :
    ((if t0.data = [] ∨ t1.data = [] then []
      else decodeDetections sig thr mf (fun i => t0.data.getD i 0)
        (fun i => t1.data.getD i 0) generateAnchors.length) : List DetectedFace).Pairwise
      (fun a b => b.confidence ≤ a.confidence)
    ∧ ((if t0.data = [] ∨ t1.data = [] then []
      else decodeDetections sig thr mf (fun i => t0.data.getD i 0)
        (fun i => t1.data.getD i 0) generateAnchors.length) : List DetectedFace).length
      ≤ 3 * mf := by
  split_ifs with h
  · exact ⟨List.Pairwise.nil, by simp⟩
  · exact decodeDetections_sorted_le sig thr mf _ _ _

/-- The 4-output branch body is sorted and truncated. -/
theorem fourOut_sorted_le (sig : ℚ → ℚ) (thr : ℚ) (mf : ℕ) (s1 s2 r1 r2 : Tensor) :
    ((if s1.data = [] ∨ r1.data = [] then []
      else decodeDetections sig thr mf (fun i => (r1.data ++ r2.data).getD i 0)
        (fun i => (s1.data ++ s2.data).getD i 0) generateAnchors.length)
      : List DetectedFace).Pairwise (fun a b => b.confidence ≤ a.confidence)
    ∧ ((if s1.data = [] ∨ r1.data = [] then []
      else decodeDetections sig thr mf (fun i => (r1.data ++ r2.data).getD i 0)
        (fun i => (s1.data ++ s2.data).getD i 0) generateAnchors.length)
      : List DetectedFace).length ≤ 3 * mf := by
  split_ifs with h
  · exact ⟨List.Pairwise.nil, by simp⟩
  · exact decodeDetections_sorted_le sig thr mf _ _ _

/-- A fold whose step is guarded by `acc.length < mf` stays within `mf`
elements once each guarded step does. -/
theorem foldl_cap_length {α : Type} (mf : ℕ) (h : List DetectedFace → α → List DetectedFace)
    (hh : ∀ acc x, acc.length < mf → (h acc x).length ≤ mf) :
    ∀ (l : List α) (acc : List DetectedFace), acc.length ≤ mf →
    (l.foldl (fun acc x => if acc.length < mf then h acc x else acc) acc).length ≤ mf := by
  intro l
  induction l with
  | nil =>
    intro acc hacc
    simpa using hacc
  | cons x rest ih =>
    intro acc hacc
    simp only [List.foldl_cons]
    by_cases hc : acc.length < mf
    · rw [if_pos hc]
      exact ih _ (hh acc x hc)
    · rw [if_neg hc]
      exact ih _ hacc

/-- The 1-output branch collects at most `maxFaces` candidates. -/
theorem candidates1_length_le (sig : ℚ → ℚ) (thr : ℚ) (mf : ℕ) (t : Tensor) :
    (candidates1 sig thr mf t).length ≤ mf := by
  simp only [candidates1]
  by_cases he : t.data = []
  · rw [if_pos he]
    simp
  · rw [if_neg he]
    by_cases h17 : 17 ≤ t.data.length / generateAnchors.length
    · rw [if_pos h17]
      refine foldl_cap_length mf _ ?_ _ [] (by simp)
      intro acc x hacc
      by_cases hsc : thr ≤ sig (t.data.getD (x * (t.data.length / generateAnchors.length) + 16) 0)
      · rw [if_pos hsc]
        simp only [List.length_append, List.length_cons, List.length_nil]
        omega
      · rw [if_neg hsc]
        omega
    · rw [if_neg h17]
      simp

/-- Once the cap is reached, a guarded fold no longer changes its
accumulator. -/
theorem foldl_cap_stable {α : Type} (mf : ℕ) (h : List DetectedFace → α → List DetectedFace) :
    ∀ (l : List α) (acc : List DetectedFace), mf ≤ acc.length →
    l.foldl (fun acc x => if acc.length < mf then h acc x else acc) acc = acc := by
  intro l
  induction l with
  | nil =>
    intro acc _
    rfl
  | cons x rest ih =>
    intro acc hacc
    simp only [List.foldl_cons]
    rw [if_neg (by omega)]
    exact ih acc hacc

/-- Counterexample to C3 as stated: with a range-respecting sigmoid, a
threshold of 0.5, `maxFaces = 2` and a single-output combined tensor whose
anchor-0 score is below its anchor-1 score, the candidate list handed to NMS
by the 1-output path is NOT sorted descending by confidence (it is `[3/4,
7/8]`, in anchor order), refuting "in every face-decode path the candidate
list handed to non-max suppression is sorted descending ... and truncated to
3 × maxFaces". -/
theorem face_candidates_unsorted_cex :
    ¬ (∀ sig : ℚ → ℚ, (∀ s, 0 < sig s ∧ sig s < 1) →
        ∀ (thr : ℚ) (mf : ℕ) (outputs : List Tensor),
        (faceCandidates sig thr mf outputs).Pairwise
          (fun a b => b.confidence ≤ a.confidence)
        ∧ (faceCandidates sig thr mf outputs).length ≤ 3 * mf) := by
  intro hclaim
  have h := (hclaim sigC sigC_range (1/2) 2 [tCombined]).1
  have hlen : tCombined.data.length = 15232 := by
    rw [tCombined]
    simp only [List.length_append, List.length_replicate, List.length_cons, List.length_nil]
  have hstep : faceCandidates sigC (1/2) 2 [tCombined]
      = candidates1 sigC (1/2) 2 tCombined := by
    simp only [faceCandidates]
    norm_num
  have hc1 : candidates1 sigC (1/2) 2 tCombined
      = (List.range 896).foldl (fun faces i =>
          if faces.length < 2 then
            if (1 : ℚ)/2 ≤ sigC (tCombined.data.getD (i * 17 + 16) 0) then
              faces ++ [decodeFaceFrom i (sigC (tCombined.data.getD (i * 17 + 16) 0))
                (fun j => tCombined.data.getD (i * 17 + j) 0)]
            else faces
          else faces) [] := by
    simp only [candidates1]
    simp only [hlen, anchors_length]
    norm_num
    intro hcon
    exact absurd hcon (by decide)
  rw [hstep, hc1] at h
  have hsplit : List.range 896 = 0 :: 1 :: List.range' 2 894 := by
    rw [List.range_eq_range']
    rfl
  rw [hsplit, List.foldl_cons, List.foldl_cons] at h
  rw [foldl_cap_stable 2 _ (List.range' 2 894) _ (by decide)] at h
  exact absurd h (by decide)

/-- C3, amended: the 4-output and 2-output face-decode paths hand non-max
suppression a candidate list sorted descending by confidence and truncated
to at most `3 × maxFaces`; the 1-output path instead collects accepted
candidates in anchor order, capped at `maxFaces`, without sorting. -/
theorem face_candidates_sorted_truncated (sig : ℚ → ℚ) (thr : ℚ) (mf : ℕ)
    (outputs : List Tensor) :
    (2 ≤ outputs.length →
      (faceCandidates sig thr mf outputs).Pairwise (fun a b => b.confidence ≤ a.confidence)
      ∧ (faceCandidates sig thr mf outputs).length ≤ 3 * mf)
    ∧ (outputs.length = 1 → (faceCandidates sig thr mf outputs).length ≤ mf) := by
  constructor
  · intro h2
    rcases outputs with _ | ⟨a, _ | ⟨b, _ | ⟨c, _ | ⟨d, _ | ⟨e, rest⟩⟩⟩⟩⟩
    · exact absurd h2 (by simp)
    · exact absurd h2 (by simp)
    · exact twoOut_sorted_le sig thr mf a b
    · exact twoOut_sorted_le sig thr mf a b
    · exact fourOut_sorted_le sig thr mf a b c d
    · exact twoOut_sorted_le sig thr mf a b
  · intro h1
    rcases outputs with _ | ⟨a, _ | ⟨b, rest⟩⟩
    · simp at h1
    · exact candidates1_length_le sig thr mf a
    · simp only [List.length_cons] at h1
      omega

/-- Witness for C3's amended theorem: the 2-output pair `[tRegs, tScores]`
yields a sorted candidate list of at most 30 faces. -/
theorem face_candidates_sorted_truncated_witness :
    (faceCandidates sigC (3/4) 10 [tRegs, tScores]).Pairwise
      (fun a b => b.confidence ≤ a.confidence)
    ∧ (faceCandidates sigC (3/4) 10 [tRegs, tScores]).length ≤ 3 * 10 := by
  exact (face_candidates_sorted_truncated sigC (3/4) 10 [tRegs, tScores]).1 (by decide)

/-- Every face built by the shared per-anchor decode body satisfies the C10
invariant, given a score in `(0, 1)` at or above the threshold. -/
theorem decodeFaceFrom_inv (thr : ℚ) (i : ℕ) (score : ℚ) (box : ℕ → ℚ)
    (hthr : thr ≤ score) (h0 : 0 < score) (h1 : score < 1) :
    faceInv thr (decodeFaceFrom i score box) := by
  rw [faceInv]
  refine ⟨clampQ_mem _, clampQ_mem _, clampQ_mem _, clampQ_mem _, ?_, hthr, h0, h1⟩
  intro p hp
  simp only [decodeFaceFrom, List.mem_map, List.mem_range] at hp
  obtain ⟨l, _, rfl⟩ := hp
  exact ⟨clampQ_mem _, clampQ_mem _⟩

/-- Every face produced by the shared decode helper satisfies the C10
invariant. -/
theorem decodeDetections_inv (sig : ℚ → ℚ) (hsig : ∀ s, 0 < sig s ∧ sig s < 1)
    (thr : ℚ) (mf : ℕ) (regressors scores : ℕ → ℚ) (numAnchors : ℕ) :
    ∀ f ∈ decodeDetections sig thr mf regressors scores numAnchors, faceInv thr f := by
  intro f hf
  simp only [decodeDetections] at hf
  have hf2 := List.mem_of_mem_take hf
  have hf3 := ((List.perm_insertionSort confGE _).mem_iff).mp hf2
  rw [List.mem_filterMap] at hf3
  obtain ⟨i, _, hi⟩ := hf3
  by_cases hsc : thr ≤ sig (scores i)
  · rw [if_pos hsc, Option.some.injEq] at hi
    subst hi
    exact decodeFaceFrom_inv thr i _ _ hsc (hsig _).1 (hsig _).2
  · rw [if_neg hsc] at hi
    exact Option.noConfusion hi

/-- A fold whose step is guarded by `acc.length < mf` preserves a per-face
property once each guarded step does. -/
theorem foldl_guard_preserve {α : Type} (P : DetectedFace → Prop) (mf : ℕ)
    (h : List DetectedFace → α → List DetectedFace)
    (hh : ∀ acc x, (∀ y ∈ acc, P y) → ∀ f ∈ h acc x, P f) :
    ∀ (l : List α) (acc : List DetectedFace), (∀ y ∈ acc, P y) →
    ∀ f ∈ l.foldl (fun acc x => if acc.length < mf then h acc x else acc) acc, P f := by
  intro l
  induction l with
  | nil =>
    intro acc hacc f hf
    exact hacc f hf
  | cons x rest ih =>
    intro acc hacc f hf
    simp only [List.foldl_cons] at hf
    by_cases hc : acc.length < mf
    · rw [if_pos hc] at hf
      exact ih (h acc x) (hh acc x hacc) f hf
    · rw [if_neg hc] at hf
      exact ih acc hacc f hf

/-- Every face collected by the 1-output branch satisfies the C10
invariant. -/
theorem candidates1_inv (sig : ℚ → ℚ) (hsig : ∀ s, 0 < sig s ∧ sig s < 1)
    (thr : ℚ) (mf : ℕ) (t : Tensor) :
    ∀ f ∈ candidates1 sig thr mf t, faceInv thr f := by
  intro f hf
  simp only [candidates1] at hf
  by_cases he : t.data = []
  · rw [if_pos he] at hf
    exact absurd hf (List.not_mem_nil f)
  · rw [if_neg he] at hf
    by_cases h17 : 17 ≤ t.data.length / generateAnchors.length
    · rw [if_pos h17] at hf
      refine foldl_guard_preserve (faceInv thr) mf _ ?_ _ [] (by simp) f hf
      intro acc x hacc g hg
      by_cases hsc : thr ≤ sig (t.data.getD (x * (t.data.length / generateAnchors.length) + 16) 0)
      · rw [if_pos hsc] at hg
        rcases List.mem_append.mp hg with hg1 | hg2
        · exact hacc g hg1
        · rw [List.mem_singleton] at hg2
          subst hg2
          exact decodeFaceFrom_inv thr x _ _ hsc (hsig _).1 (hsig _).2
      · rw [if_neg hsc] at hg
        exact hacc g hg
    · rw [if_neg h17] at hf
      exact absurd hf (List.not_mem_nil f)

/-- 2-output branch body version of the invariant. -/
theorem twoOut_inv (sig : ℚ → ℚ) (hsig : ∀ s, 0 < sig s ∧ sig s < 1)
    (thr : ℚ) (mf : ℕ) (t0 t1 : Tensor) :
    ∀ f ∈ ((if t0.data = [] ∨ t1.data = [] then []
      else decodeDetections sig thr mf (fun i => t0.data.getD i 0)
        (fun i => t1.data.getD i 0) generateAnchors.length) : List DetectedFace),
      faceInv thr f := by
  split_ifs with h
  · intro f hf
    exact absurd hf (List.not_mem_nil f)
  · exact decodeDetections_inv sig hsig thr mf _ _ _

/-- 4-output branch body version of the invariant. -/
theorem fourOut_inv (sig : ℚ → ℚ) (hsig : ∀ s, 0 < sig s ∧ sig s < 1)
    (thr : ℚ) (mf : ℕ) (s1 s2 r1 r2 : Tensor) :
    ∀ f ∈ ((if s1.data = [] ∨ r1.data = [] then []
      else decodeDetections sig thr mf (fun i => (r1.data ++ r2.data).getD i 0)
        (fun i => (s1.data ++ s2.data).getD i 0) generateAnchors.length)
      : List DetectedFace), faceInv thr f := by
  split_ifs with h
  · intro f hf
    exact absurd hf (List.not_mem_nil f)
  · exact decodeDetections_inv sig hsig thr mf _ _ _

/-- Every candidate of every decode path satisfies the C10 invariant. -/
theorem faceCandidates_inv (sig : ℚ → ℚ) (hsig : ∀ s, 0 < sig s ∧ sig s < 1)
    (thr : ℚ) (mf : ℕ) (outputs : List Tensor) :
    ∀ f ∈ faceCandidates sig thr mf outputs, faceInv thr f := by
  rcases outputs with _ | ⟨a, _ | ⟨b, _ | ⟨c, _ | ⟨d, _ | ⟨e, rest⟩⟩⟩⟩⟩
  · intro f hf
    exact absurd hf (List.not_mem_nil f)
  · exact candidates1_inv sig hsig thr mf a
  · exact twoOut_inv sig hsig thr mf a b
  · exact twoOut_inv sig hsig thr mf a b
  · exact fourOut_inv sig hsig thr mf a b c d
  · exact twoOut_inv sig hsig thr mf a b

/-- Non-max suppression returns a subsequence of its input. -/
theorem nonMaxSuppression_sublist (mf : ℕ) (faces : List DetectedFace) :
    List.Sublist (nonMaxSuppression mf faces) faces := by
  obtain ⟨s, hs, hsub⟩ := nmsLoop_prefix faces.enum [] mf
  have hK : List.Sublist (nmsKeptPairs mf faces) faces.enum := by
    rw [nmsKeptPairs_eq_loop, hs, List.nil_append]
    exact hsub
  have h2 := hK.map (fun p : ℕ × DetectedFace => p.2)
  rw [show faces.enum.map (fun p : ℕ × DetectedFace => p.2) = faces from
    List.enum_map_snd faces] at h2
  exact h2

/-- C10: for any sigmoid with range `(0, 1)` (as the logistic sigmoid has),
every face `processOutputTensor` leaves in `m_faces` — through any of the
three decode paths, sorting, truncation and non-max suppression — has all
four bounding-box components in `[0, 1]`, all landmark coordinates in
`[0, 1]`, and a confidence strictly inside `(0, 1)` that is at least the
configured threshold. -/
theorem face_invariant (sig : ℚ → ℚ) (hsig : ∀ s, 0 < sig s ∧ sig s < 1)
    (thr : ℚ) (mf : ℕ) (outputs : List Tensor) :
    ∀ f ∈ faceProcessOutput sig thr mf outputs, faceInv thr f := by
  intro f hf
  rw [faceProcessOutput] at hf
  have hsubs := nonMaxSuppression_sublist mf (faceCandidates sig thr mf outputs)
  exact faceCandidates_inv sig hsig thr mf outputs f (hsubs.subset hf)

/-- Witness for C10's theorem: the first face surviving the full 2-output
pipeline on `[tRegs, tScores]` satisfies the invariant. -/
theorem face_invariant_witness :
    faceInv (3/4) ((faceProcessOutput sigC (3/4) 10 [tRegs, tScores]).getD 0 emptyFace) := by
  have hrw : faceProcessOutput sigC (3/4) 10 [tRegs, tScores]
      = (nmsLoop 10 [] (faceCandidates sigC (3/4) 10 [tRegs, tScores]).enum).map
          (fun p => p.2) := by
    rw [show faceProcessOutput sigC (3/4) 10 [tRegs, tScores]
        = (nmsKeptPairs 10 (faceCandidates sigC (3/4) 10 [tRegs, tScores])).map
            (fun p => p.2) from rfl,
      nmsKeptPairs_eq_loop]
  refine face_invariant sigC sigC_range (3/4) 10 [tRegs, tScores] _ ?_
  rw [hrw]
  decide

end VividOnnx
